import Mathlib

set_option autoImplicit false

/-!
Verification of the heartwood core against its sources: the LWW CRDT
(`radicle-crdt/src/lwwset.rs`), the identity document
(`radicle/src/identity/doc.rs`) and the fetch entry points
(`radicle-fetch/src/lib.rs`).
-/

namespace Heartwood

universe u v w

/-! ### CRDT: Last-Write-Wins register, map and set -/

/-- Modelled from the spec: the value slot of an LWW register (the
`radicle-crdt` `LWWMap`/`LWWReg`/`Redactable` sources are not among the files
at hand).  A removal is stored as a tombstone (`redacted`), a live value as
`present`; in the tie-break order a tombstone sits strictly below every
present value, so adds win on equal clocks. -/
inductive Redactable (V : Type u) where
  | redacted
  | present (v : V)
deriving DecidableEq

/-- View of a redactable value inside `WithBot`: the tombstone is bottom. -/
def Redactable.toWithBot {V : Type u} : Redactable V → WithBot V
  | .redacted => ⊥
  | .present v => (v : WithBot V)

/-- Modelled from the spec: the strict tie-break order on stored values:
a present value beats a tombstone, and present values compare by the value
order. -/
def Redactable.ltb {V : Type u} [LinearOrder V] : Redactable V → Redactable V → Bool
  | .redacted, .present _ => true
  | .present a, .present b => decide (a < b)
  | _, _ => false

theorem Redactable.toWithBot_injective {V : Type u} :
    Function.Injective (Redactable.toWithBot (V := V)) := by
  intro a b h
  cases a <;> cases b <;> simp [toWithBot] at h ⊢
  · exact h

theorem Redactable.ltb_iff {V : Type u} [LinearOrder V] (a b : Redactable V) :
    a.ltb b = true ↔ a.toWithBot < b.toWithBot := by
  cases a <;> cases b <;>
    simp [ltb, toWithBot, WithBot.bot_lt_coe, WithBot.coe_lt_coe]

/-- Modelled from the spec: an LWW register pairs a (redactable) value with
the clock of its last write. -/
structure Reg (V : Type u) (C : Type v) where
  value : Redactable V
  clock : C
deriving DecidableEq

/-- The sort key of a register: clock first, then value, lexicographically. -/
def Reg.key {V : Type u} {C : Type v} (r : Reg V C) : Lex (C × WithBot V) :=
  toLex (r.clock, r.value.toWithBot)

theorem Reg.key_injective {V : Type u} {C : Type v} :
    Function.Injective (Reg.key (V := V) (C := C)) := by
  intro a b h
  have h' := congrArg ofLex h
  have h1 : a.clock = b.clock := congrArg Prod.fst h'
  have h2 : a.value.toWithBot = b.value.toWithBot := congrArg Prod.snd h'
  cases a; cases b
  simp only at h1 h2
  simp [h1, Redactable.toWithBot_injective h2]

/-- Modelled from the spec: merging an incoming write `b` into a register `a`:
the incoming write replaces the stored one iff its clock is strictly greater,
or the clocks are equal and the incoming value is strictly greater in the
tie-break order (so adds win over removals on equal clocks). -/
def Reg.join {V : Type u} {C : Type v} [LinearOrder V] [LinearOrder C]
    (a b : Reg V C) : Reg V C :=
  if a.clock < b.clock then b
  else if b.clock < a.clock then a
  else if a.value.ltb b.value then b else a

theorem Reg.join_eq_key {V : Type u} {C : Type v} [LinearOrder V] [LinearOrder C]
    (a b : Reg V C) : a.join b = if a.key < b.key then b else a := by
  have hk : a.key < b.key ↔
      a.clock < b.clock ∨ (a.clock = b.clock ∧ a.value.toWithBot < b.value.toWithBot) := by
    simp [Reg.key, Prod.Lex.lt_iff]
  unfold Reg.join
  rcases lt_trichotomy a.clock b.clock with h | h | h
  · rw [if_pos h, if_pos (hk.mpr (Or.inl h))]
  · rw [if_neg (by simp [h]), if_neg (by simp [h])]
    by_cases hv : a.value.ltb b.value = true
    · rw [if_pos hv, if_pos (hk.mpr (Or.inr ⟨h, (Redactable.ltb_iff _ _).mp hv⟩))]
    · rw [if_neg hv, if_neg]
      rw [hk]
      rintro (hc | ⟨-, hvv⟩)
      · exact absurd hc (by simp [h])
      · exact hv ((Redactable.ltb_iff _ _).mpr hvv)
  · rw [if_neg (asymm h), if_pos h, if_neg]
    rw [hk]
    rintro (hc | ⟨he, -⟩)
    · exact absurd hc (asymm h)
    · exact absurd he (ne_of_gt h)

theorem regJoin_comm {V : Type u} {C : Type v} [LinearOrder V] [LinearOrder C]
    (a b : Reg V C) : a.join b = b.join a := by
  rw [Reg.join_eq_key, Reg.join_eq_key]
  rcases lt_trichotomy a.key b.key with h | h | h
  · rw [if_pos h, if_neg (asymm h)]
  · have : a = b := Reg.key_injective h
    subst this
    simp
  · rw [if_neg (asymm h), if_pos h]

theorem regJoin_assoc {V : Type u} {C : Type v} [LinearOrder V] [LinearOrder C]
    (a b c : Reg V C) : (a.join b).join c = a.join (b.join c) := by
  simp only [Reg.join_eq_key]
  by_cases hab : a.key < b.key
  · simp only [if_pos hab]
    by_cases hbc : b.key < c.key
    · simp only [if_pos hbc, if_pos (lt_trans hab hbc)]
    · simp only [if_neg hbc, if_pos hab]
  · simp only [if_neg hab]
    by_cases hbc : b.key < c.key
    · simp only [if_pos hbc]
    · have hac : ¬ a.key < c.key :=
        not_lt.mpr (le_trans (not_lt.mp hbc) (not_lt.mp hab))
      simp only [if_neg hbc, if_neg hab, if_neg hac]

theorem regJoin_idem {V : Type u} {C : Type v} [LinearOrder V] [LinearOrder C]
    (a : Reg V C) : a.join a = a := by
  rw [Reg.join_eq_key, if_neg (lt_irrefl _)]

/-- Pointwise merge of optional registers: a key present on one side only
keeps its register, a key present on both sides joins them. -/
def optJoin {α : Type u} (j : α → α → α) : Option α → Option α → Option α
  | some x, some y => some (j x y)
  | some x, none => some x
  | none, o => o

theorem optJoin_comm {α : Type u} (j : α → α → α)
    (hj : ∀ x y, j x y = j y x) (a b : Option α) :
    optJoin j a b = optJoin j b a := by
  cases a <;> cases b <;> simp [optJoin, hj]

theorem optJoin_assoc {α : Type u} (j : α → α → α)
    (hj : ∀ x y z, j (j x y) z = j x (j y z)) (a b c : Option α) :
    optJoin j (optJoin j a b) c = optJoin j a (optJoin j b c) := by
  cases a <;> cases b <;> cases c <;> simp [optJoin, hj]

theorem optJoin_idem {α : Type u} (j : α → α → α)
    (hj : ∀ x, j x x = x) (a : Option α) :
    optJoin j a a = a := by
  cases a <;> simp [optJoin, hj]

/-- Modelled from the spec: an LWW map holds, per key, the register of the
last write for that key (the `radicle-crdt` `LWWMap` source is not among the
files at hand); extensionally, a partial function from keys to registers. -/
def LWWMap (K : Type u) (V : Type w) (C : Type v) : Type (max u v w) :=
  K → Option (Reg V C)

/-- `LWWMap::default`: the empty map. -/
def LWWMap.empty {K : Type u} {V : Type w} {C : Type v} : LWWMap K V C := fun _ => none

/-- Modelled from the spec: `LWWMap::insert` writes a present value at the
given clock; if a register exists it is merged by the LWW rule. -/
def LWWMap.insert {K : Type u} {V : Type w} {C : Type v} [DecidableEq K] [LinearOrder V]
    [LinearOrder C] (m : LWWMap K V C) (k : K) (v : V) (c : C) : LWWMap K V C :=
  fun q =>
    if q = k then
      some (match m k with
        | none => ⟨.present v, c⟩
        | some r => r.join ⟨.present v, c⟩)
    else m q

/-- Modelled from the spec: `LWWMap::remove` writes a tombstone at the given
clock; if a register exists it is merged by the LWW rule. -/
def LWWMap.remove {K : Type u} {V : Type w} {C : Type v} [DecidableEq K] [LinearOrder V]
    [LinearOrder C] (m : LWWMap K V C) (k : K) (c : C) : LWWMap K V C :=
  fun q =>
    if q = k then
      some (match m k with
        | none => ⟨.redacted, c⟩
        | some r => r.join ⟨.redacted, c⟩)
    else m q

/-- Modelled from the spec: `LWWMap::contains_key` — a key is present iff its
register holds a present value (its latest add is not dominated by a
tombstone). -/
def LWWMap.contains_key {K : Type u} {V : Type w} {C : Type v} (m : LWWMap K V C) (k : K) :
    Bool :=
  match m k with
  | some ⟨.present _, _⟩ => true
  | _ => false

/-- Modelled from the spec: `LWWMap::join` merges pointwise by the LWW rule. -/
def LWWMap.join {K : Type u} {V : Type w} {C : Type v} [LinearOrder V] [LinearOrder C]
    (a b : LWWMap K V C) : LWWMap K V C :=
  fun k => optJoin Reg.join (a k) (b k)

theorem mapJoin_comm {K : Type u} {V : Type w} {C : Type v} [LinearOrder V]
    [LinearOrder C] (a b : LWWMap K V C) : a.join b = b.join a := by
  funext k
  exact optJoin_comm _ regJoin_comm _ _

theorem mapJoin_assoc {K : Type u} {V : Type w} {C : Type v} [LinearOrder V]
    [LinearOrder C] (a b c : LWWMap K V C) :
    (a.join b).join c = a.join (b.join c) := by
  funext k
  exact optJoin_assoc _ regJoin_assoc _ _ _

theorem mapJoin_idem {K : Type u} {V : Type w} {C : Type v} [LinearOrder V]
    [LinearOrder C] (a : LWWMap K V C) : a.join a = a := by
  funext k
  exact optJoin_idem _ regJoin_idem _

/-- `LWWSet<T, C>` from `radicle-crdt/src/lwwset.rs`: an LWW map with unit
values. -/
def LWWSet (T : Type u) (C : Type v) : Type (max u v) := LWWMap T Unit C

/-- `LWWSet::default`. -/
def LWWSet.empty {T : Type u} {C : Type v} : LWWSet T C := LWWMap.empty

/-- `LWWSet::insert`. -/
def LWWSet.insert {T : Type u} {C : Type v} [DecidableEq T] [LinearOrder C]
    (s : LWWSet T C) (value : T) (clock : C) : LWWSet T C :=
  LWWMap.insert s value () clock

/-- `LWWSet::remove`. -/
def LWWSet.remove {T : Type u} {C : Type v} [DecidableEq T] [LinearOrder C]
    (s : LWWSet T C) (value : T) (clock : C) : LWWSet T C :=
  LWWMap.remove s value clock

/-- `LWWSet::contains`. -/
def LWWSet.contains {T : Type u} {C : Type v} (s : LWWSet T C) (value : T) :
    Bool :=
  LWWMap.contains_key s value

/-- `LWWSet::join` (the `Semilattice` impl). -/
def LWWSet.join {T : Type u} {C : Type v} [LinearOrder C] (a b : LWWSet T C) :
    LWWSet T C :=
  LWWMap.join a b

/-- The first LWW scenario: starting empty, `insert('a',1)`, then removes at
clocks 0, 1 and 2. -/
def lwwScenarioA : LWWSet Char Nat :=
  ((((LWWSet.empty).insert 'a' 1).remove 'a' 0).remove 'a' 1).remove 'a' 2

/-- The second LWW scenario: starting empty, `insert('a',1)` then
`remove('a',1)` only. -/
def lwwScenarioB : LWWSet Char Nat :=
  (LWWSet.empty.insert 'a' 1).remove 'a' 1

/-- **C4.** For all LWW sets `a`, `b`, `c` (over ordered elements and ordered
copyable clocks), `join` is commutative, associative and idempotent. -/
theorem lwwset_join_semilattice {T : Type u} {C : Type v} [LinearOrder C]
    (a b c : LWWSet T C) :
    a.join b = b.join a ∧ (a.join b).join c = a.join (b.join c) ∧ a.join a = a :=
  ⟨mapJoin_comm a b, mapJoin_assoc a b c, mapJoin_idem a⟩

/-- **C5.** Starting empty, after `insert('a',1); remove('a',0); remove('a',1);
remove('a',2)` the set no longer contains `'a'`; starting empty, after
`insert('a',1); remove('a',1)` only, it still contains `'a'` — an add wins
over a remove carrying an equal clock. -/
theorem lwwset_insert_remove_scenario :
    lwwScenarioA.contains 'a' = false ∧ lwwScenarioB.contains 'a' = true := by
  exact ⟨rfl, rfl⟩

/-! ### Identity documents (`radicle/src/identity/doc.rs`) -/

/-- JSON values as carried by the identity document (`serde_json::Value`).
Object fields carry their keys in storage order (`serde_json`'s map type
keeps keys sorted); document numbers are integral. -/
inductive Json where
  | null
  | bool (b : Bool)
  | num (n : Int)
  | str (s : String)
  | arr (elems : List Json)
  | obj (fields : List (String × Json))

/-- A public key, abstracted as its multibase human-readable encoding (the
crypto sources are external to the files at hand); key equality is equality
of encodings. -/
abbrev PublicKey : Type := String

/-- A DID, carried as its textual `did:key:` form. -/
abbrev Did : Type := String

/-- Modelled from the spec: `Did::from(PublicKey)` — the `did:key:` form of a
public key (the `Did` source is not among the files at hand). -/
def Did.ofKey (k : PublicKey) : Did := "did:key:" ++ k

/-- Modelled from the spec: a well-formed DID string starts with `did:key:`
(multibase validation of the key material is abstracted away). -/
def Did.wellFormed (s : Did) : Bool := decide (s.data.take 8 = "did:key:".data)

/-- `nonempty::NonEmpty`: a list with a distinguished first element. -/
structure NEL (α : Type u) where
  head : α
  tail : List α
deriving DecidableEq

/-- `NonEmpty::iter` flattened to a plain list. -/
def NEL.toList {α : Type u} (l : NEL α) : List α := l.head :: l.tail

/-- `NonEmpty::len`. -/
def NEL.length {α : Type u} (l : NEL α) : Nat := l.toList.length

/-- `NonEmpty::is_empty`, which is constantly `false`. -/
def NEL.isEmpty {α : Type u} (_ : NEL α) : Bool := false

/-- `NonEmpty::from_vec`: `None` on the empty list. -/
def NEL.fromList {α : Type u} : List α → Option (NEL α)
  | [] => none
  | h :: t => some ⟨h, t⟩

/-- `Visibility` from `doc.rs`: `Public`, or `Private` with a set of allowed
DIDs (the `BTreeSet` is carried as its sorted list of elements). -/
inductive Visibility where
  | Public
  | Private (allow : List Did)
deriving DecidableEq

/-- `Visibility::is_public`. -/
def Visibility.is_public : Visibility → Bool
  | .Public => true
  | .Private _ => false

/-- `MAX_DELEGATES` from `doc.rs`. -/
def MAX_DELEGATES : Nat := 255

/-- `Doc` from `doc.rs` (the phantom verification parameter is erased; the
verified variant is characterised by `Doc.verified`).  The payload map is a
`BTreeMap`, carried as its key-sorted association list. -/
structure Doc where
  payload : List (String × Json)
  delegates : NEL Did
  threshold : Nat
  visibility : Visibility

/-- The `DocError` variants reachable from the document logic under
verification (`Commit`/`Signature`/`Trailers`/`Version` and the git errors
concern commit loading, which is out of scope here). -/
inductive DocError where
  | json (msg : String)
  | delegates (msg : String)
  | threshold (t : Nat) (msg : String)
deriving DecidableEq

/-- `Doc::is_delegate`. -/
def Doc.is_delegate (d : Doc) (key : PublicKey) : Bool :=
  decide (Did.ofKey key ∈ d.delegates.toList)

/-- `Doc::is_visible_to`. -/
def Doc.is_visible_to (d : Doc) (peer : PublicKey) : Bool :=
  match d.visibility with
  | .Public => true
  | .Private allow => decide (Did.ofKey peer ∈ allow) || d.is_delegate peer

/-- `Doc::<Unverified>::verified`: the structural checks, in source order. -/
def Doc.verified (d : Doc) : Except DocError Doc :=
  if d.delegates.length > MAX_DELEGATES then
    .error (.delegates "number of delegates cannot exceed 255")
  else if d.delegates.isEmpty then
    .error (.delegates "delegate list cannot be empty")
  else if d.threshold > d.delegates.length then
    .error (.threshold d.threshold "threshold cannot exceed number of delegates")
  else if d.threshold = 0 then
    .error (.threshold d.threshold "threshold cannot be zero")
  else
    .ok d

/-- `Doc::<Verified>::rescind`.  The Rust method takes `&mut self`; the model
returns the outcome together with the document as left by the call.  Note the
source replaces `self.delegates` *before* the threshold check. -/
def Doc.rescind (d : Doc) (key : PublicKey) : Except DocError (Option Did) × Doc :=
  match d.delegates.toList.filter (fun x => !decide (x = Did.ofKey key)) with
  | [] => (.error (.delegates "cannot remove the last delegate"), d)
  | h :: t =>
    if d.threshold > (h :: t).length then
      (.error (.threshold d.threshold
        "the thresholds exceeds the new delegate count after removal"),
       { d with delegates := ⟨h, t⟩ })
    else
      (.ok (if (d.delegates.toList.filter (fun x => decide (x = Did.ofKey key))).isEmpty
            then none
            else some (Did.ofKey key)),
       { d with delegates := ⟨h, t⟩ })

/-- A well-formed two-delegate document with threshold 1. -/
def docOk : Doc :=
  { payload := []
    delegates := ⟨"did:key:alice", ["did:key:bob"]⟩
    threshold := 1
    visibility := .Public }

/-- A document whose delegate list repeats the same DID. -/
def docDup : Doc :=
  { payload := []
    delegates := ⟨"did:key:alice", ["did:key:alice"]⟩
    threshold := 2
    visibility := .Public }

/-- A two-delegate document with threshold 2. -/
def docTwo : Doc :=
  { payload := []
    delegates := ⟨"did:key:alice", ["did:key:bob"]⟩
    threshold := 2
    visibility := .Public }

/-- A private document with a one-DID allow-list. -/
def docPriv : Doc :=
  { payload := []
    delegates := ⟨"did:key:alice", []⟩
    threshold := 1
    visibility := .Private ["did:key:carol"] }

/-- **C1.** For every decoded identity document, `Doc::verified` returns a
typed error whenever `threshold > |delegates|`, `threshold = 0`,
`|delegates| = 0` or `|delegates| > 255`, and accepts the document whenever
`1 ≤ threshold ≤ |delegates| ≤ 255`. -/
theorem doc_verified_validation (d : Doc) :
    ((∃ e, d.verified = Except.error e) ↔
      (d.threshold > d.delegates.length ∨ d.threshold = 0 ∨
       d.delegates.length = 0 ∨ d.delegates.length > 255)) ∧
    (1 ≤ d.threshold → d.threshold ≤ d.delegates.length →
      d.delegates.length ≤ 255 → d.verified = Except.ok d) := by
  constructor
  · simp only [Doc.verified, MAX_DELEGATES]
    split_ifs with h1 h2 h3 h4
    · exact ⟨fun _ => Or.inr (Or.inr (Or.inr h1)), fun _ => ⟨_, rfl⟩⟩
    · simp [NEL.isEmpty] at h2
    · exact ⟨fun _ => Or.inl h3, fun _ => ⟨_, rfl⟩⟩
    · exact ⟨fun _ => Or.inr (Or.inl h4), fun _ => ⟨_, rfl⟩⟩
    · constructor
      · rintro ⟨e, he⟩
        exact absurd he (by simp)
      · have hlen : 1 ≤ d.delegates.length := by
          simp only [NEL.length, NEL.toList, List.length_cons]
          omega
        rintro (h | h | h | h) <;> omega
  · intro ht1 ht2 ht3
    simp only [Doc.verified, MAX_DELEGATES]
    rw [if_neg (by omega), if_neg (by simp [NEL.isEmpty]), if_neg (by omega),
      if_neg (by omega)]

/-- Witness for C1: the concrete document `docOk` is accepted. -/
theorem doc_verified_validation_witness : docOk.verified = Except.ok docOk :=
  (doc_verified_validation docOk).2 (by decide) (by decide) (by decide)

/-- Counterexample for C2: `Doc::verified` accepts a document whose delegate
list contains the same DID twice, so a verified document may contain
duplicate delegates. -/
theorem doc_verified_duplicate_delegates :
    docDup.verified = Except.ok docDup ∧ ¬ docDup.delegates.toList.Nodup := by
  exact ⟨rfl, by decide⟩

/-- **C2 (amended).** Every document produced by `Doc::verified` satisfies
`1 ≤ threshold ≤ |delegates| ≤ 255` (and is the decoded document itself);
duplicate delegates are *not* rejected. -/
theorem doc_verified_invariant (d d' : Doc) (h : d.verified = Except.ok d') :
    d' = d ∧ 1 ≤ d'.threshold ∧ d'.threshold ≤ d'.delegates.length ∧
      d'.delegates.length ≤ 255 := by
  simp only [Doc.verified, MAX_DELEGATES] at h
  split_ifs at h with h1 h2 h3 h4
  have hd : d' = d := (Except.ok.inj h).symm
  subst hd
  exact ⟨rfl, by omega, by omega, by omega⟩

/-- Witness for C2 (amended): instantiated at the accepted document `docOk`. -/
theorem doc_verified_invariant_witness :
    docOk = docOk ∧ 1 ≤ docOk.threshold ∧
      docOk.threshold ≤ docOk.delegates.length ∧
      docOk.delegates.length ≤ 255 :=
  doc_verified_invariant docOk docOk (by rfl)

/-- **C8.** `is_visible_to` is true for every peer when the document is
public; when it is private with allow-list `A`, it is true exactly when the
peer's DID is in `A` or the peer is a delegate. -/
theorem doc_is_visible_to_spec (d : Doc) (peer : PublicKey) :
    (d.visibility = .Public → d.is_visible_to peer = true) ∧
    (∀ allow, d.visibility = .Private allow →
      (d.is_visible_to peer = true ↔
        (Did.ofKey peer ∈ allow ∨ d.is_delegate peer = true))) := by
  constructor
  · intro h
    simp [Doc.is_visible_to, h]
  · intro allow h
    simp [Doc.is_visible_to, h]

/-- Witness for C8: the allow-listed peer `carol` can see the private
document `docPriv`. -/
theorem doc_is_visible_to_witness : docPriv.is_visible_to "carol" = true :=
  ((doc_is_visible_to_spec docPriv "carol").2 ["did:key:carol"] rfl).mpr
    (Or.inl (by decide))

/-- **C9.** `rescind` errors exactly when removing the key would empty the
delegate list or leave fewer delegates than the threshold; on success the key
is no longer a delegate and the remaining delegates are the prior ones,
in order. -/
theorem doc_rescind_spec (d : Doc) (key : PublicKey) :
    ((∃ e, (d.rescind key).1 = Except.error e) ↔
      (d.delegates.toList.filter (fun x => !decide (x = Did.ofKey key)) = [] ∨
       d.threshold >
         (d.delegates.toList.filter (fun x => !decide (x = Did.ofKey key))).length)) ∧
    (∀ r, (d.rescind key).1 = Except.ok r →
      (d.rescind key).2.delegates.toList =
        d.delegates.toList.filter (fun x => !decide (x = Did.ofKey key)) ∧
      Did.ofKey key ∉ (d.rescind key).2.delegates.toList) := by
  unfold Doc.rescind
  split
  · next heq =>
    rw [heq]
    constructor
    · exact ⟨fun _ => Or.inl rfl, fun _ => ⟨_, rfl⟩⟩
    · intro r hr
      exact absurd hr (by simp)
  · next h t heq =>
    rw [heq]
    by_cases hth : d.threshold > (h :: t).length
    · rw [if_pos hth]
      constructor
      · exact ⟨fun _ => Or.inr hth, fun _ => ⟨_, rfl⟩⟩
      · intro r hr
        exact absurd hr (by simp)
    · rw [if_neg hth]
      constructor
      · constructor
        · rintro ⟨e, he⟩
          exact absurd he (by simp)
        · rintro (hc | hc)
          · exact absurd hc (by simp)
          · exact absurd hc hth
      · intro r _
        refine ⟨rfl, ?_⟩
        intro hmem
        have hmem' : Did.ofKey key ∈
            d.delegates.toList.filter (fun x => !decide (x = Did.ofKey key)) := by
          rw [heq]
          exact hmem
        have := List.of_mem_filter hmem'
        simp at this

/-- Witness for C9: rescinding `alice` from `docOk` succeeds and removes
her DID. -/
theorem doc_rescind_spec_witness :
    (docOk.rescind "alice").2.delegates.toList =
      docOk.delegates.toList.filter (fun x => !decide (x = Did.ofKey "alice")) ∧
    Did.ofKey "alice" ∉ (docOk.rescind "alice").2.delegates.toList :=
  (doc_rescind_spec docOk "alice").2 (some (Did.ofKey "alice")) (by rfl)

/-- Counterexample for C10: on `docTwo` (two delegates, threshold 2, a
document `Doc::verified` accepts unchanged), `rescind` returns the threshold
error yet leaves the document with the delegate already removed — the
operation is not atomic on error. -/
theorem doc_rescind_error_mutates :
    docTwo.verified = Except.ok docTwo ∧
    (docTwo.rescind "alice").1 = Except.error (.threshold 2
      "the thresholds exceeds the new delegate count after removal") ∧
    (docTwo.rescind "alice").2 ≠ docTwo := by
  refine ⟨rfl, rfl, ?_⟩
  intro h
  exact absurd (congrArg (fun dd => dd.delegates.head) h) (by decide)

/-- **C10 (amended).** `rescind` never changes the payload, threshold or
visibility; when it fails with the last-delegate error the document is left
unchanged, but when it fails with the threshold error the delegate list has
already been replaced by the filtered list. -/
theorem doc_rescind_partial_mutation (d : Doc) (key : PublicKey) :
    (d.rescind key).2.payload = d.payload ∧
    (d.rescind key).2.threshold = d.threshold ∧
    (d.rescind key).2.visibility = d.visibility ∧
    (∀ m, (d.rescind key).1 = Except.error (.delegates m) → (d.rescind key).2 = d) ∧
    (∀ t m, (d.rescind key).1 = Except.error (.threshold t m) →
      (d.rescind key).2.delegates.toList =
        d.delegates.toList.filter (fun x => !decide (x = Did.ofKey key))) := by
  unfold Doc.rescind
  split
  · next heq =>
    exact ⟨rfl, rfl, rfl, fun _ _ => rfl, fun t m hm => absurd hm (by simp)⟩
  · next h t heq =>
    by_cases hth : d.threshold > (h :: t).length
    · rw [if_pos hth]
      refine ⟨rfl, rfl, rfl, ?_, ?_⟩
      · intro m hm
        exact absurd hm (by simp)
      · intro t' m' _
        exact heq.symm
    · rw [if_neg hth]
      exact ⟨rfl, rfl, rfl, fun m hm => absurd hm (by simp),
        fun t' m' hm => absurd hm (by simp)⟩

/-- Witness for C10 (amended): instantiated at `docTwo` and the key `alice`,
where the threshold error fires. -/
theorem doc_rescind_partial_mutation_witness :
    (docTwo.rescind "alice").2.delegates.toList =
      docTwo.delegates.toList.filter (fun x => !decide (x = Did.ofKey "alice")) :=
  (doc_rescind_partial_mutation docTwo "alice").2.2.2.2 2
    "the thresholds exceeds the new delegate count after removal" (by rfl)

/-! ### Canonical encoding and decoding of identity documents

`Doc::encode` serializes with the repository's `CanonicalFormatter` (sorted
object keys, no insignificant whitespace); `Doc::from_json` is the derived
`serde` deserializer applied to parsed JSON.  The canonical-JSON module and
the `serde` text grammar are not among the files at hand, so the formatter is
modelled from the spec and decoding is modelled at the level of parsed JSON
values. -/

/-- One hexadecimal digit, lowercase. -/
def hexDigit (n : Nat) : String :=
  String.singleton (if n < 10 then Char.ofNat (48 + n) else Char.ofNat (87 + n))

/-- Modelled from the spec: canonical escaping of one character inside a JSON
string (the `serde_json` escape set: quote, backslash, shorthand control
escapes, `\u00XX` for the remaining control characters). -/
def escapeChar (c : Char) : String :=
  if c = '"' then "\\\""
  else if c = '\\' then "\\\\"
  else if c = Char.ofNat 8 then "\\b"
  else if c = Char.ofNat 9 then "\\t"
  else if c = Char.ofNat 10 then "\\n"
  else if c = Char.ofNat 12 then "\\f"
  else if c = Char.ofNat 13 then "\\r"
  else if c.toNat < 32 then "\\u00" ++ hexDigit (c.toNat / 16) ++ hexDigit (c.toNat % 16)
  else String.singleton c

/-- Canonical rendering of a JSON string literal. -/
def renderString (s : String) : String :=
  "\"" ++ String.join (s.toList.map escapeChar) ++ "\""

mutual

/-- Modelled from the spec: the `CanonicalFormatter` byte output — no
whitespace, numbers in minimal form, canonical string escapes.  Object fields
are emitted in storage order; the maps the document serializes keep their
keys sorted, which is what makes the output canonical. -/
def render : Json → String
  | .null => "null"
  | .bool true => "true"
  | .bool false => "false"
  | .num n => toString n
  | .str s => renderString s
  | .arr es => "[" ++ renderElems es ++ "]"
  | .obj fs => "\x7b" ++ renderFields fs ++ "\x7d"

/-- Comma-separated rendering of array elements. -/
def renderElems : List Json → String
  | [] => ""
  | [e] => render e
  | e :: e' :: rest => render e ++ "," ++ renderElems (e' :: rest)

/-- Comma-separated rendering of object fields. -/
def renderFields : List (String × Json) → String
  | [] => ""
  | [(k, v)] => renderString k ++ ":" ++ render v
  | (k, v) :: f :: rest => renderString k ++ ":" ++ render v ++ "," ++ renderFields (f :: rest)

end

/-- `serde` serialization of `Visibility` (internally tagged with `type`,
camel-case variant names, the `allow` set skipped when empty), with the
fields in the sorted order the canonical formatter emits. -/
def Visibility.toJson : Visibility → Json
  | .Public => .obj [("type", .str "public")]
  | .Private allow =>
    if allow.isEmpty then .obj [("type", .str "private")]
    else .obj [("allow", .arr (allow.map Json.str)), ("type", .str "private")]

/-- `serde` serialization of `Doc` (field names in camel case, the
`visibility` field skipped when public, the phantom parameter skipped), with
the fields in the sorted order the canonical formatter emits. -/
def Doc.toJson (d : Doc) : Json :=
  .obj ([("delegates", .arr (d.delegates.toList.map Json.str)),
         ("payload", .obj d.payload),
         ("threshold", .num (d.threshold : Int))] ++
    (if d.visibility.is_public then [] else [("visibility", d.visibility.toJson)]))

/-- `Doc::<Verified>::encode`, restricted to the serialized bytes (the blob
oid it also returns is the git hash of these bytes, out of scope here). -/
def Doc.encode (d : Doc) : String := render d.toJson

/-- First-match field lookup in a JSON object. -/
def getField (fields : List (String × Json)) (k : String) : Option Json :=
  match fields with
  | [] => none
  | (k', v) :: rest => if k' = k then some v else getField rest k

/-- `BTreeMap` insertion into a key-sorted association list (later entries
with an equal key replace earlier ones, as `serde` collection into a
`BTreeMap` does). -/
def btreeInsert (l : List (String × Json)) (kv : String × Json) : List (String × Json) :=
  match l with
  | [] => [kv]
  | (k, v) :: rest =>
    if kv.1 < k then kv :: (k, v) :: rest
    else if kv.1 = k then (kv.1, kv.2) :: rest
    else (k, v) :: btreeInsert rest kv

/-- Collecting decoded object fields into a `BTreeMap`. -/
def btreeOfList (l : List (String × Json)) : List (String × Json) :=
  l.foldl btreeInsert []

/-- `BTreeSet` insertion into a sorted list. -/
def btsInsert (l : List String) (a : String) : List String :=
  match l with
  | [] => [a]
  | b :: rest =>
    if a < b then a :: b :: rest
    else if a = b then b :: rest
    else b :: btsInsert rest a

/-- Collecting decoded elements into a `BTreeSet`. -/
def btsOfList (l : List String) : List String :=
  l.foldl btsInsert []

/-- Decoding a JSON array of DID strings (each element must be a string in
`did:key:` form; modelled from the spec, the `Did` deserializer being outside
the files at hand). -/
def decodeDids : List Json → Except DocError (List Did)
  | [] => .ok []
  | .str s :: rest =>
    if Did.wellFormed s then
      match decodeDids rest with
      | .ok l => .ok (s :: l)
      | .error e => .error e
    else .error (.json "invalid DID")
  | _ :: _ => .error (.json "expected a DID string")

/-- `serde` deserialization of `Visibility` from the optional `visibility`
field: a missing field defaults to public; a present field is an internally
tagged object whose `allow` set defaults to empty. -/
def decodeVisibility : Option Json → Except DocError Visibility
  | none => .ok .Public
  | some (.obj vfs) =>
    match getField vfs "type" with
    | some (.str t) =>
      if t = "public" then .ok .Public
      else if t = "private" then
        match getField vfs "allow" with
        | none => .ok (.Private [])
        | some (.arr els) =>
          match decodeDids els with
          | .ok l => .ok (.Private (btsOfList l))
          | .error e => .error e
        | some _ => .error (.json "invalid allow list")
      else .error (.json "invalid visibility")
    | _ => .error (.json "invalid visibility")
  | some _ => .error (.json "expected a visibility object")

/-- `Doc::<Unverified>::from_json`, modelled on parsed JSON values: the
derived `serde` deserializer — a required `payload` object collected into a
`BTreeMap`, a required non-empty `delegates` array of DIDs, a required
non-negative integral `threshold`, an optional `visibility`. -/
def Doc.from_json (j : Json) : Except DocError Doc :=
  match j with
  | .obj fields =>
    match getField fields "payload", getField fields "delegates",
        getField fields "threshold" with
    | some (.obj pfs), some (.arr dels), some (.num n) =>
      match decodeDids dels, decodeVisibility (getField fields "visibility") with
      | .ok (h :: t), .ok vis =>
        if 0 ≤ n then
          .ok { payload := btreeOfList pfs
                delegates := ⟨h, t⟩
                threshold := n.toNat
                visibility := vis }
        else .error (.json "invalid threshold")
      | .ok [], _ => .error (.json "delegate list cannot be empty")
      | .error e, _ => .error e
      | _, .error e => .error e
    | _, _, _ => .error (.json "invalid document")
  | _ => .error (.json "expected a document object")

/-- `Doc::from_json` followed by `Doc::verified`: the decode-and-reverify
pipeline of the round-trip law. -/
def Doc.decodeVerified (j : Json) : Except DocError Doc :=
  match Doc.from_json j with
  | .ok raw => raw.verified
  | .error e => .error e

/-- The representation invariants the Rust types give a document by
construction: the payload `BTreeMap` keys are strictly sorted, every
delegate is a DID string, and a private allow `BTreeSet` is strictly sorted
with DID elements. -/
def Doc.wf (d : Doc) : Prop :=
  d.payload.Pairwise (fun a b => a.1 < b.1) ∧
  (∀ x ∈ d.delegates.toList, Did.wellFormed x = true) ∧
  (match d.visibility with
   | .Public => True
   | .Private allow =>
     allow.Pairwise (fun a b => a < b) ∧ ∀ x ∈ allow, Did.wellFormed x = true)

theorem btreeInsert_append (acc : List (String × Json)) (x : String × Json)
    (h : ∀ a ∈ acc, a.1 < x.1) : btreeInsert acc x = acc ++ [x] := by
  induction acc with
  | nil => rfl
  | cons b rest ih =>
    obtain ⟨k, v⟩ := b
    have hk : k < x.1 := h (k, v) (List.mem_cons_self _ _)
    simp only [btreeInsert]
    rw [if_neg (asymm hk), if_neg (ne_of_gt hk),
      ih (fun a ha => h a (List.mem_cons_of_mem _ ha))]
    rfl

theorem foldl_btreeInsert (l : List (String × Json)) :
    ∀ acc, l.Pairwise (fun a b => a.1 < b.1) →
      (∀ a ∈ acc, ∀ b ∈ l, a.1 < b.1) →
      List.foldl btreeInsert acc l = acc ++ l := by
  induction l with
  | nil =>
    intro acc _ _
    simp
  | cons x xs ih =>
    intro acc hl hcross
    have hx : ∀ b ∈ xs, x.1 < b.1 := (List.pairwise_cons.mp hl).1
    have hxs : xs.Pairwise (fun a b => a.1 < b.1) := (List.pairwise_cons.mp hl).2
    have hcross' : ∀ a ∈ acc ++ [x], ∀ b ∈ xs, a.1 < b.1 := by
      intro a ha b hb
      rcases List.mem_append.mp ha with h1 | h1
      · exact hcross a h1 b (List.mem_cons_of_mem _ hb)
      · rw [List.mem_singleton] at h1
        subst h1
        exact hx b hb
    rw [List.foldl_cons,
      btreeInsert_append acc x (fun a ha => hcross a ha x (List.mem_cons_self _ _)),
      ih (acc ++ [x]) hxs hcross']
    simp

theorem btreeOfList_sorted (l : List (String × Json))
    (hl : l.Pairwise (fun a b => a.1 < b.1)) : btreeOfList l = l := by
  simpa [btreeOfList] using foldl_btreeInsert l [] hl (by simp)

theorem btsInsert_append (acc : List String) (x : String)
    (h : ∀ a ∈ acc, a < x) : btsInsert acc x = acc ++ [x] := by
  induction acc with
  | nil => rfl
  | cons b rest ih =>
    have hb : b < x := h b (List.mem_cons_self _ _)
    simp only [btsInsert]
    rw [if_neg (asymm hb), if_neg (ne_of_gt hb),
      ih (fun a ha => h a (List.mem_cons_of_mem _ ha))]
    rfl

theorem foldl_btsInsert (l : List String) :
    ∀ acc, l.Pairwise (fun a b => a < b) →
      (∀ a ∈ acc, ∀ b ∈ l, a < b) →
      List.foldl btsInsert acc l = acc ++ l := by
  induction l with
  | nil =>
    intro acc _ _
    simp
  | cons x xs ih =>
    intro acc hl hcross
    have hx : ∀ b ∈ xs, x < b := (List.pairwise_cons.mp hl).1
    have hxs : xs.Pairwise (fun a b => a < b) := (List.pairwise_cons.mp hl).2
    have hcross' : ∀ a ∈ acc ++ [x], ∀ b ∈ xs, a < b := by
      intro a ha b hb
      rcases List.mem_append.mp ha with h1 | h1
      · exact hcross a h1 b (List.mem_cons_of_mem _ hb)
      · rw [List.mem_singleton] at h1
        subst h1
        exact hx b hb
    rw [List.foldl_cons,
      btsInsert_append acc x (fun a ha => hcross a ha x (List.mem_cons_self _ _)),
      ih (acc ++ [x]) hxs hcross']
    simp

theorem btsOfList_sorted (l : List String)
    (hl : l.Pairwise (fun a b => a < b)) : btsOfList l = l := by
  simpa [btsOfList] using foldl_btsInsert l [] hl (by simp)

theorem decodeDids_map (l : List Did) (h : ∀ x ∈ l, Did.wellFormed x = true) :
    decodeDids (l.map Json.str) = Except.ok l := by
  induction l with
  | nil => rfl
  | cons x xs ih =>
    simp only [List.map_cons, decodeDids]
    rw [if_pos (h x (List.mem_cons_self _ _)),
      ih (fun y hy => h y (List.mem_cons_of_mem _ hy))]

theorem decodeVisibility_private (allow : List String)
    (hs : allow.Pairwise (fun a b => a < b))
    (hw : ∀ x ∈ allow, Did.wellFormed x = true) :
    decodeVisibility (some (Visibility.toJson (.Private allow))) =
      Except.ok (.Private allow) := by
  cases allow with
  | nil => rfl
  | cons a as =>
    show decodeVisibility (some (.obj
      [("allow", .arr ((a :: as).map Json.str)), ("type", .str "private")])) = _
    have hdd : decodeDids (Json.str a :: List.map Json.str as) = Except.ok (a :: as) := by
      simpa using decodeDids_map (a :: as) hw
    simp [decodeVisibility, getField, hdd, btsOfList_sorted _ hs]

theorem Doc.verified_ok (d : Doc) (h1 : 1 ≤ d.threshold)
    (h2 : d.threshold ≤ d.delegates.length) (h3 : d.delegates.length ≤ 255) :
    d.verified = Except.ok d := by
  simp only [Doc.verified, MAX_DELEGATES]
  rw [if_neg (by omega), if_neg (by simp [NEL.isEmpty]), if_neg (by omega),
    if_neg (by omega)]

theorem Doc.from_json_toJson (d : Doc) (hw : d.wf) :
    Doc.from_json (Doc.toJson d) = Except.ok d := by
  obtain ⟨pl, ⟨dh, dt⟩, th, vis⟩ := d
  obtain ⟨hp, hdel, hvis⟩ := hw
  have hdd : decodeDids (Json.str dh :: List.map Json.str dt) = Except.ok (dh :: dt) := by
    simpa using decodeDids_map (dh :: dt) (by simpa [NEL.toList] using hdel)
  cases vis with
  | Public =>
    simp only [Doc.toJson, Visibility.is_public, NEL.toList, List.map_cons,
      if_true, List.append_nil]
    simp [Doc.from_json, getField, decodeVisibility, hdd, btreeOfList_sorted pl hp]
  | Private allow =>
    obtain ⟨hs, hwf⟩ := hvis
    simp only [Doc.toJson, Visibility.is_public, NEL.toList, List.map_cons,
      Bool.false_eq_true, if_false, List.cons_append, List.nil_append]
    simp [Doc.from_json, getField, hdd, btreeOfList_sorted pl hp,
      decodeVisibility_private allow hs hwf]

/-- **C3.** For every verified identity document (well-formed per the Rust
representation invariants and passing the structural checks), decoding the
canonical encoding and re-verifying yields the document back, and re-encoding
the decoded document reproduces the identical canonical bytes.  Decoding is
modelled at the level of parsed JSON values: the text-to-value parser is
`serde_json`, external to this repository. -/
theorem doc_encode_decode_roundtrip (d : Doc) (hw : d.wf)
    (h1 : 1 ≤ d.threshold) (h2 : d.threshold ≤ d.delegates.length)
    (h3 : d.delegates.length ≤ 255) :
    Doc.decodeVerified (Doc.toJson d) = Except.ok d ∧
    ∀ d', Doc.decodeVerified (Doc.toJson d) = Except.ok d' →
      d'.encode = d.encode := by
  have hdec : Doc.decodeVerified (Doc.toJson d) = Except.ok d := by
    unfold Doc.decodeVerified
    rw [Doc.from_json_toJson d hw]
    exact Doc.verified_ok d h1 h2 h3
  refine ⟨hdec, fun d' hd' => ?_⟩
  rw [hdec] at hd'
  rw [← Except.ok.inj hd']

/-- A concrete document with a project payload and a private allow-list,
used to witness the round-trip law. -/
def docC3 : Doc :=
  { payload := [("xyz.radicle.project",
      .obj [("defaultBranch", .str "main"), ("description", .str "demo"),
            ("name", .str "heartwood")])]
    delegates := ⟨"did:key:z6Mkalice", []⟩
    threshold := 1
    visibility := .Private ["did:key:z6Mkcarol"] }

/-- Witness for C3: the round trip at the concrete document `docC3`. -/
theorem doc_encode_decode_roundtrip_witness :
    Doc.decodeVerified (Doc.toJson docC3) = Except.ok docC3 :=
  (doc_encode_decode_roundtrip docC3
    ⟨by simp [docC3], by decide, by simp [docC3], by decide⟩
    (by decide) (by decide) (by decide)).1

/-! ### Fetch entry points (`radicle-fetch/src/lib.rs`) -/

/-- `Error` from `radicle-fetch/src/lib.rs` (error payloads abstracted). -/
inductive FetchError where
  | handshake
  | identity
  | protocol
  | missingRadId
  | replicateSelf
deriving DecidableEq

/-- The parts of `Handle` (defined in `radicle-fetch`'s `handle.rs`, which is
not among the files at hand) that `pull` and `clone` use: the local peer's
key (`Handle::local`) and the blocklist (`Handle::blocked`). -/
structure Handle (K : Type u) where
  localKey : K
  blocked : List K
deriving DecidableEq

/-- An observable step of a fetch entry point: the transport handshake, or
running the staged fetch protocol (`FetchState::run`), recorded with the
blocklist in force at that moment, the remote key and the refs hint. -/
inductive FetchEvent (K : Type u) (ρ : Type v) where
  | handshake
  | run (blocked : List K) (remote : K) (refsAt : Option (List ρ))
deriving DecidableEq

/-- The environment a fetch runs against: the outcome of the transport
handshake and of the staged protocol.  Both are implemented outside the files
at hand and are treated as oracles the entry points consult. -/
structure FetchEnv (K : Type u) (ρ : Type v) (φ : Type w) where
  handshakeOk : Bool
  runResult : Handle K → Nat → K → Option (List ρ) → Except Unit φ

/-- `pull` from `radicle-fetch/src/lib.rs`: guard against self-replication,
perform the handshake, extend the blocklist with the local key, then run the
staged protocol.  The model returns the result, the handle as left by the
call (`pull` takes `&mut Handle`), and the trace of steps taken. -/
def pull {K : Type u} {ρ : Type v} {φ : Type w} [DecidableEq K]
    (env : FetchEnv K ρ φ) (handle : Handle K) (limit : Nat) (remote : K)
    (refsAt : Option (List ρ)) :
    Except FetchError φ × Handle K × List (FetchEvent K ρ) :=
  if handle.localKey = remote then
    (.error .replicateSelf, handle, [])
  else if env.handshakeOk = false then
    (.error .handshake, handle, [.handshake])
  else
    (match env.runResult { handle with blocked := handle.blocked ++ [handle.localKey] }
        limit remote refsAt with
      | .error _ => .error .protocol
      | .ok r => .ok r,
     { handle with blocked := handle.blocked ++ [handle.localKey] },
     [.handshake, .run (handle.blocked ++ [handle.localKey]) remote refsAt])

/-- `clone` from `radicle-fetch/src/lib.rs`: guard against self-replication,
perform the handshake, then run the staged protocol with no refs hint.  The
handle — in particular its blocklist — is not modified. -/
def clone {K : Type u} {ρ : Type v} {φ : Type w} [DecidableEq K]
    (env : FetchEnv K ρ φ) (handle : Handle K) (limit : Nat) (remote : K) :
    Except FetchError φ × Handle K × List (FetchEvent K ρ) :=
  if handle.localKey = remote then
    (.error .replicateSelf, handle, [])
  else if env.handshakeOk = false then
    (.error .handshake, handle, [.handshake])
  else
    (match env.runResult handle limit remote none with
      | .error _ => .error .protocol
      | .ok r => .ok r,
     handle,
     [.handshake, .run handle.blocked remote none])

/-- A concrete fetch environment over `Nat` keys whose handshake and staged
protocol both succeed. -/
def envNat : FetchEnv Nat Nat Nat :=
  { handshakeOk := true
    runResult := fun _ _ _ _ => .ok 0 }

/-- A concrete handle: local key `0`, empty blocklist. -/
def handleNat : Handle Nat :=
  { localKey := 0
    blocked := [] }

/-- **C6.** Whenever the remote equals the handle's local key, `pull` and
`clone` both return `Error::ReplicateSelf`, leave the handle untouched, and
take no step at all — in particular no handshake and no fetch is attempted,
whatever the environment would have answered. -/
theorem fetch_replicate_self_guard {K : Type u} {ρ : Type v} {φ : Type w}
    [DecidableEq K] (env : FetchEnv K ρ φ) (handle : Handle K) (limit : Nat)
    (remote : K) (refsAt : Option (List ρ)) (h : handle.localKey = remote) :
    pull env handle limit remote refsAt = (.error .replicateSelf, handle, []) ∧
    clone env handle limit remote = (.error .replicateSelf, handle, []) := by
  unfold pull clone
  rw [if_pos h, if_pos h]
  exact ⟨rfl, rfl⟩

/-- Witness for C6: fetching from oneself with the concrete handle. -/
theorem fetch_replicate_self_guard_witness :
    pull envNat handleNat 7 0 none = (.error .replicateSelf, handleNat, []) ∧
    clone envNat handleNat 7 0 = (.error .replicateSelf, handleNat, []) :=
  fetch_replicate_self_guard envNat handleNat 7 0 none rfl

/-- Counterexample for C7: `clone` runs the staged protocol with the
blocklist as given — here empty, not containing the local key — so `clone`
does not ensure the local key is in the blocklist. -/
theorem clone_runs_without_blocking_local :
    FetchEvent.run ([] : List Nat) 1 (none : Option (List Nat)) ∈
      (clone envNat handleNat 7 1).2.2 ∧
    handleNat.localKey ∉ ([] : List Nat) := by
  exact ⟨by decide, by decide⟩

/-- **C7 (amended).** `pull` ensures the local key is in the blocklist before
the staged protocol runs: every protocol step it takes carries a blocklist
containing the local key.  `clone`, by contrast, runs the staged protocol
with the handle's blocklist unchanged, relying on the `remote ≠ local` guard
alone. -/
theorem fetch_blocklist_local {K : Type u} {ρ : Type v} {φ : Type w}
    [DecidableEq K] (env : FetchEnv K ρ φ) (handle : Handle K) (limit : Nat)
    (remote : K) (refsAt : Option (List ρ)) :
    (∀ b r rs, FetchEvent.run b r rs ∈ (pull env handle limit remote refsAt).2.2 →
      handle.localKey ∈ b) ∧
    (∀ b r rs, FetchEvent.run b r rs ∈ (clone env handle limit remote).2.2 →
      b = handle.blocked) := by
  constructor
  · intro b r rs hmem
    unfold pull at hmem
    split_ifs at hmem with h1 h2
    · simp at hmem
    · simp at hmem
    · simp only [List.mem_cons, List.not_mem_nil, or_false] at hmem
      rcases hmem with h | h
      · simp at h
      · injection h with hb hr hrs
        subst hb
        simp
  · intro b r rs hmem
    unfold clone at hmem
    split_ifs at hmem with h1 h2
    · simp at hmem
    · simp at hmem
    · simp only [List.mem_cons, List.not_mem_nil, or_false] at hmem
      rcases hmem with h | h
      · simp at h
      · injection h with hb hr hrs

/-- Witness for C7 (amended): a concrete `pull` whose protocol step carries
the local key in its blocklist. -/
theorem fetch_blocklist_local_witness : handleNat.localKey ∈ ([0] : List Nat) :=
  (fetch_blocklist_local envNat handleNat 7 1 none).1 [0] 1 none (by decide)

end Heartwood
